import Mathlib

/-!
Verification of the Kitchen component (a fixed-capacity bag of dishes with
incrementally maintained aggregates) from `src/Kitchen.cpp` / `src/Kitchen.hpp`.

The `Dish` record type and the `ArrayBag` base class are external collaborators
of the repository that are not present under `src/`; they are modelled from the
specification (structural equality, closed category set, capacity-bounded
append/first-match removal).  Everything in the `Kitchen` namespace below is a
direct shallow embedding of the member functions in `src/Kitchen.cpp`; C++
`int` is modelled by `ℤ`.  C++ `double` arithmetic appears in two places: the
average (a single rounded quotient, where the exact rational model provably
coincides with binary64 on `int`-ranged states) and the elaborate percentage
(three dependent roundings, where it does not — so the percentage pipeline is
modelled bit-exactly via `fp64Round`, IEEE round-to-nearest-even at 53 bits).
-/

namespace Project03

/-- Modelled from the spec: the category of a dish is "one of a fixed closed
set of string labels" (ITALIAN, MEXICAN, CHINESE, INDIAN, AMERICAN, FRENCH,
OTHER); the `Dish` type exposing it is an external collaborator whose header is
not under `src/`. -/
inductive CuisineType where
  | italian
  | mexican
  | chinese
  | indian
  | american
  | french
  | other
deriving DecidableEq, Repr

/-- The string label returned by `Dish::getCuisineType()`: the canonical
uppercase spelling of the category. -/
def CuisineType.toLabel : CuisineType → String
  | .italian => "ITALIAN"
  | .mexican => "MEXICAN"
  | .chinese => "CHINESE"
  | .indian => "INDIAN"
  | .american => "AMERICAN"
  | .french => "FRENCH"
  | .other => "OTHER"

/-- The fixed closed set of category labels, in canonical order. -/
def cuisineLabels : List String :=
  ["ITALIAN", "MEXICAN", "CHINESE", "INDIAN", "AMERICAN", "FRENCH", "OTHER"]

/-- Modelled from the spec: the external `Dish` record (header not under
`src/`), "identified by structural equality over its fields", exposing a name,
an ingredient list (`getIngredients()`), a non-negative preparation time in
minutes (`getPrepTime()`) and a category (`getCuisineType()`). -/
structure Dish where
  name : String
  ingredients : List String
  prepTime : Nat
  cuisineType : CuisineType
deriving DecidableEq, Repr

/-- The "elaborate" test used in `Kitchen::newOrder` / `Kitchen::serveDish`:
`getIngredients().size() >= 5 && getPrepTime() >= 60`. -/
def Dish.isElaborate (d : Dish) : Bool :=
  decide (5 ≤ d.ingredients.length) && decide (60 ≤ d.prepTime)

/-- State of a `Kitchen` (which is an `ArrayBag<Dish>` plus two aggregate
fields).  The inherited array `items_`/`item_count_` is modelled as the list of
live entries; the fixed capacity of the underlying array is a field. -/
structure Kitchen where
  capacity : Nat
  items : List Dish
  total_prep_time : Int
  count_elaborate : Int
deriving DecidableEq, Repr

namespace Kitchen

/-- `Kitchen::Kitchen()`: empty bag, both aggregates zero. -/
def emptyKitchen (cap : Nat) : Kitchen :=
  { capacity := cap, items := [], total_prep_time := 0, count_elaborate := 0 }

/-- Modelled from the spec: `ArrayBag<Dish>::add` (header not under `src/`) —
"rejects if an equal-valued dish is already present, or if at capacity";
on success appends the entry. -/
def add (k : Kitchen) (d : Dish) : Bool × Kitchen :=
  if k.items.contains d || decide (k.capacity ≤ k.items.length) then
    (false, k)
  else
    (true, { k with items := k.items ++ [d] })

/-- Modelled from the spec: `ArrayBag<Dish>::remove` (header not under `src/`)
— "finds first entry equal to `dish` by value; if found, deletes it (compacting
the sequence so no gap remains)". -/
def remove (k : Kitchen) (d : Dish) : Bool × Kitchen :=
  if k.items.contains d then
    (true, { k with items := k.items.erase d })
  else
    (false, k)

/-- `Kitchen::newOrder`: add the dish, and on success add its prep time to the
running sum and bump the elaborate count when the dish is elaborate. -/
def newOrder (k : Kitchen) (d : Dish) : Bool × Kitchen :=
  let r := k.add d
  if r.1 then
    (true,
      { r.2 with
        total_prep_time := r.2.total_prep_time + (d.prepTime : Int),
        count_elaborate :=
          if d.isElaborate then r.2.count_elaborate + 1 else r.2.count_elaborate })
  else
    (false, r.2)

/-- `Kitchen::serveDish`: remove the dish, and on success subtract its prep
time from the running sum and drop the elaborate count when the dish is
elaborate. -/
def serveDish (k : Kitchen) (d : Dish) : Bool × Kitchen :=
  let r := k.remove d
  if r.1 then
    (true,
      { r.2 with
        total_prep_time := r.2.total_prep_time - (d.prepTime : Int),
        count_elaborate :=
          if d.isElaborate then r.2.count_elaborate - 1 else r.2.count_elaborate })
  else
    (false, r.2)

/-- `Kitchen::getPrepTimeSum`: returns the aggregate field. -/
def getPrepTimeSum (k : Kitchen) : Int :=
  k.total_prep_time

/-- `Kitchen::elaborateDishCount`: returns the aggregate field. -/
def elaborateDishCount (k : Kitchen) : Int :=
  k.count_elaborate

end Kitchen

/-- Truncation toward zero, the semantics of C++ `static_cast<int>` on a
floating-point value (modelled exactly on `ℚ`; for `calculateAvgPrepTime` the
single rounding of the `double` quotient cannot move the truncated result, so
the exact model coincides with the `double` one on all `int`-ranged states). -/
def ratTrunc (q : ℚ) : Int :=
  if 0 ≤ q then ⌊q⌋ else ⌈q⌉

/-- The binary64 ("double") normalization loop: repeatedly scales the
fraction a/b by two, tracking the base-two exponent so that a/b · 2^e never
changes, until 2^52 ≤ a/b < 2^53.  The fuel only bounds the number of steps;
it is never exhausted for numerators and denominators a C++ `int` can
produce. -/
def scaleToPrec : Nat → Nat → Nat → Int → Nat × Nat × Int
  | 0, a, b, e => (a, b, e)
  | fuel + 1, a, b, e =>
    if 2 ^ 53 * b ≤ a then scaleToPrec fuel a (2 * b) (e + 1)
    else if a < 2 ^ 52 * b then scaleToPrec fuel (2 * a) b (e - 1)
    else (a, b, e)

/-- IEEE binary64 rounding (round to nearest, ties to even) of the positive
fraction a/b: the mantissa–exponent pair (m, e), with value m · 2^e, of the
`double` closest to a/b.  This is exact over the whole normal range; the
subnormal and overflow thresholds are unreachable from `int`-ranged a and b. -/
def fp64Round (a b : Nat) : Nat × Int :=
  match scaleToPrec 4096 a b 0 with
  | (a2, b2, e) =>
    let q := a2 / b2
    let r := a2 % b2
    if 2 * r < b2 then (q, e)
    else if b2 < 2 * r then (q + 1, e)
    else if q % 2 = 0 then (q, e)
    else (q + 1, e)

/-- The rational value of a mantissa–exponent pair. -/
def fpVal (p : Nat × Int) : ℚ :=
  (p.1 : ℚ) * 2 ^ p.2

/-- C `round` (nearest, halfway cases away from zero) of the non-negative
value m · 2^e, in integer arithmetic. -/
def fpRoundHalfAwayPos (m : Nat) (e : Int) : Nat :=
  if 0 ≤ e then m * 2 ^ e.toNat
  else
    m / 2 ^ (-e).toNat + (if 2 ^ (-e).toNat ≤ 2 * (m % 2 ^ (-e).toNat) then 1 else 0)

/-- `round(((double)c / n) * 100 * 100)` for a non-negative count c and a
positive size n, with every `double` operation modelled exactly at the bit
level: first the correctly rounded binary64 quotient c/n, then two correctly
rounded multiplications by 100 (an exact small integer, so only the mantissa
needs re-rounding while the exponents add), then C `round`.  This is the
number of hundredths `Kitchen::calculateElaboratePercentage` computes. -/
def pctHundredthsFp (c n : Nat) : Nat :=
  if c = 0 then 0
  else
    let s1 := fp64Round c n
    let s2 := fp64Round (100 * s1.1) 1
    let s3 := fp64Round (100 * s2.1) 1
    fpRoundHalfAwayPos s3.1 (s1.2 + s2.2 + s3.2)

namespace Kitchen

/-- `Kitchen::calculateAvgPrepTime`: 0 when empty, otherwise
`static_cast<int>(total_prep_time_ / (double)size + 0.5)`. -/
def calculateAvgPrepTime (k : Kitchen) : Int :=
  if k.items.length = 0 then 0
  else ratTrunc ((k.total_prep_time : ℚ) / (k.items.length : ℚ) + 1/2)

/-- The percentage computed by `Kitchen::calculateElaboratePercentage`,
expressed in hundredths (the integer produced by `round(percentage * 100)`):
0 when empty, otherwise the exact binary64 evaluation of
`(double)count_elaborate_ / size * 100 * 100` followed by C `round`.  IEEE
operations and `round` are odd functions, so a negative count (never produced
by the operations) goes through the positive pipeline with its sign carried
outside. -/
def elaboratePctHundredths (k : Kitchen) : Int :=
  if k.items.length = 0 then 0
  else if 0 ≤ k.count_elaborate then
    (pctHundredthsFp k.count_elaborate.toNat k.items.length : Int)
  else
    -(pctHundredthsFp (-k.count_elaborate).toNat k.items.length : Int)

/-- `Kitchen::calculateElaboratePercentage`: 0.0 when empty, otherwise
`round(percentage * 100) / 100.0`. -/
def calculateElaboratePercentage (k : Kitchen) : ℚ :=
  if k.items.length = 0 then 0
  else (k.elaboratePctHundredths : ℚ) / 100

/-- `Kitchen::tallyCuisineTypes`: loop over the live entries counting exact
(case-sensitive) matches of `getCuisineType()` against the argument. -/
def tallyCuisineTypes (k : Kitchen) (cuisineType : String) : Nat :=
  k.items.countP (fun d => d.cuisineType.toLabel == cuisineType)

end Kitchen

/-- The in-place removal loop shared by `Kitchen::releaseDishesBelowPrepTime`
and `Kitchen::releaseDishesOfCuisineType`: scan left to right; when the current
entry matches, shift the remaining entries one slot left (deleting the current
entry, so the same index is examined again), decrement the live count and bump
the removed counter.  Returns the removed counter and the surviving entries. -/
def removeAllMatching (p : Dish → Bool) : List Dish → Nat × List Dish
  | [] => (0, [])
  | d :: rest =>
    if p d then
      let r := removeAllMatching p rest
      (r.1 + 1, r.2)
    else
      let r := removeAllMatching p rest
      (r.1, d :: r.2)

namespace Kitchen

/-- `Kitchen::releaseDishesBelowPrepTime`: removes every entry with
`getPrepTime() < threshold`; the aggregate fields are NOT touched. -/
def releaseDishesBelowPrepTime (k : Kitchen) (threshold : Int) : Nat × Kitchen :=
  let r := removeAllMatching (fun d => decide ((d.prepTime : Int) < threshold)) k.items
  (r.1, { k with items := r.2 })

/-- `Kitchen::releaseDishesOfCuisineType`: removes every entry with
`getCuisineType() == cuisine_type`; the aggregate fields are NOT touched. -/
def releaseDishesOfCuisineType (k : Kitchen) (cuisine_type : String) : Nat × Kitchen :=
  let r := removeAllMatching (fun d => d.cuisineType.toLabel == cuisine_type) k.items
  (r.1, { k with items := r.2 })

end Kitchen

/-- Sum of the preparation times of a list of entries (the value
`total_prep_time_` is documented to track). -/
def prepTimeSumOf (l : List Dish) : Int :=
  (l.map (fun d => (d.prepTime : Int))).sum

/-- Number of elaborate entries in a list (the value `count_elaborate_` is
documented to track). -/
def elaborateCountOf (l : List Dish) : Int :=
  (l.countP Dish.isElaborate : Nat)

/-- The seven per-category counters accumulated by `Kitchen::kitchenReport`
(the local array `counts[7]`). -/
structure ReportCounts where
  italian : Nat
  mexican : Nat
  chinese : Nat
  indian : Nat
  american : Nat
  french : Nat
  other : Nat
deriving DecidableEq, Repr

/-- The `if`/`else if` chain in the loop body of `Kitchen::kitchenReport`:
bump the counter of the branch whose label equals `getCuisineType()`. -/
def bumpCount (c : ReportCounts) (d : Dish) : ReportCounts :=
  let s := d.cuisineType.toLabel
  if s == "ITALIAN" then { c with italian := c.italian + 1 }
  else if s == "MEXICAN" then { c with mexican := c.mexican + 1 }
  else if s == "CHINESE" then { c with chinese := c.chinese + 1 }
  else if s == "INDIAN" then { c with indian := c.indian + 1 }
  else if s == "AMERICAN" then { c with american := c.american + 1 }
  else if s == "FRENCH" then { c with french := c.french + 1 }
  else if s == "OTHER" then { c with other := c.other + 1 }
  else c

/-- The counting loop of `Kitchen::kitchenReport`: fold the chain over the
live entries, starting from all-zero counters. -/
def countCuisines (l : List Dish) : ReportCounts :=
  l.foldl bumpCount ⟨0, 0, 0, 0, 0, 0, 0⟩

/-- C++ default `operator<<` rendering of the `double` value `h / 100` for
`0 ≤ h ≤ 10000` (6 significant digits, `%g` style): the exact decimal
expansion with trailing fractional zeros omitted, and the decimal point
omitted when the fractional part is zero. -/
def renderHundredths (h : Int) : String :=
  let whole := h / 100
  let frac := h % 100
  if frac = 0 then toString whole
  else if frac % 10 = 0 then toString whole ++ "." ++ toString (frac / 10)
  else if frac < 10 then toString whole ++ ".0" ++ toString frac
  else toString whole ++ "." ++ toString frac

/-- Rendering of `h / 100` with exactly two digits after the decimal point,
the way the specification's report example reads. -/
def renderHundredthsFixed (h : Int) : String :=
  let whole := h / 100
  let frac := h % 100
  if frac < 10 then toString whole ++ ".0" ++ toString frac
  else toString whole ++ "." ++ toString frac

namespace Kitchen

/-- `Kitchen::kitchenReport`: the full text written to `std::cout` (the two
`std::endl` after the category block are the blank line; the percentage is
streamed with the default `double` formatting). -/
def kitchenReport (k : Kitchen) : String :=
  let c := countCuisines k.items
  "ITALIAN: " ++ toString c.italian ++
  "\nMEXICAN: " ++ toString c.mexican ++
  "\nCHINESE: " ++ toString c.chinese ++
  "\nINDIAN: " ++ toString c.indian ++
  "\nAMERICAN: " ++ toString c.american ++
  "\nFRENCH: " ++ toString c.french ++
  "\nOTHER: " ++ toString c.other ++
  "\n\n" ++
  "AVERAGE PREP TIME: " ++ toString k.calculateAvgPrepTime ++
  "\nELABORATE DISHES: " ++ renderHundredths k.elaboratePctHundredths ++
  "%\n\n"

/-- The report as the claim reads it: the seven canonical category lines with
counts given by `tallyCuisineTypes`, a blank line, the rounded average, and
the percentage rendered with exactly two decimal places followed by `%`. -/
def claimedReport (k : Kitchen) : String :=
  "ITALIAN: " ++ toString (k.tallyCuisineTypes ("ITALIAN")) ++
  "\nMEXICAN: " ++ toString (k.tallyCuisineTypes ("MEXICAN")) ++
  "\nCHINESE: " ++ toString (k.tallyCuisineTypes ("CHINESE")) ++
  "\nINDIAN: " ++ toString (k.tallyCuisineTypes ("INDIAN")) ++
  "\nAMERICAN: " ++ toString (k.tallyCuisineTypes ("AMERICAN")) ++
  "\nFRENCH: " ++ toString (k.tallyCuisineTypes ("FRENCH")) ++
  "\nOTHER: " ++ toString (k.tallyCuisineTypes ("OTHER")) ++
  "\n\n" ++
  "AVERAGE PREP TIME: " ++ toString k.calculateAvgPrepTime ++
  "\nELABORATE DISHES: " ++ renderHundredthsFixed k.elaboratePctHundredths ++
  "%\n\n"

/-- The report with the same layout and counts but the percentage in the
default `double` formatting actually produced by the code. -/
def defaultFormatReport (k : Kitchen) : String :=
  "ITALIAN: " ++ toString (k.tallyCuisineTypes ("ITALIAN")) ++
  "\nMEXICAN: " ++ toString (k.tallyCuisineTypes ("MEXICAN")) ++
  "\nCHINESE: " ++ toString (k.tallyCuisineTypes ("CHINESE")) ++
  "\nINDIAN: " ++ toString (k.tallyCuisineTypes ("INDIAN")) ++
  "\nAMERICAN: " ++ toString (k.tallyCuisineTypes ("AMERICAN")) ++
  "\nFRENCH: " ++ toString (k.tallyCuisineTypes ("FRENCH")) ++
  "\nOTHER: " ++ toString (k.tallyCuisineTypes ("OTHER")) ++
  "\n\n" ++
  "AVERAGE PREP TIME: " ++ toString k.calculateAvgPrepTime ++
  "\nELABORATE DISHES: " ++ renderHundredths k.elaboratePctHundredths ++
  "%\n\n"

end Kitchen

/-- Round to the nearest integer with halves rounded up, the rounding the
specification prescribes for the average preparation time. -/
def roundHalfUp (q : ℚ) : Int :=
  ⌊q + 1/2⌋

/-- Round to two decimal places (nearest, halves up), the rounding the
specification prescribes for the elaborate percentage. -/
def roundTo2 (q : ℚ) : ℚ :=
  (⌊q * 100 + 1/2⌋ : ℚ) / 100

/-- The state reached from an empty kitchen by inserting one elaborate
60-minute ITALIAN dish and then calling `releaseDishesBelowPrepTime 61`,
which removes it. -/
def staleTrace : Kitchen :=
  (((Kitchen.emptyKitchen 10).newOrder
      ⟨"stew", ["beef", "salt", "onion", "carrot", "thyme"], 60, .italian⟩
    ).2.releaseDishesBelowPrepTime 61).2

/-- Kitchen with 160 pairwise-distinct entries of which exactly 23 are
elaborate (reachable by 160 accepted `newOrder` calls): at this size the
three-rounding `double` pipeline lands just below the exact half-hundredth
tie 1437.5 (at 1437.4999999999998), so the program rounds down to 14.37 where
exact 2-decimal rounding gives 14.38. -/
def tieDemo : Kitchen :=
  { capacity := 200,
    items := (List.range 160).map (fun i =>
      ⟨Nat.repr i,
       if i < 23 then ["beef", "salt", "onion", "carrot", "thyme"] else ["rice"],
       if i < 23 then 60 else 10,
       .other⟩),
    total_prep_time := 23 * 60 + 137 * 10,
    count_elaborate := 23 }

/-- Kitchen holding one elaborate 60-minute ITALIAN dish, used to exhibit the
report's default `double` formatting of a whole-number percentage. -/
def pctDemo : Kitchen :=
  { capacity := 10,
    items := [⟨"stew", ["beef", "salt", "onion", "carrot", "thyme"], 60, .italian⟩],
    total_prep_time := 60,
    count_elaborate := 1 }

/-! ### Helper lemmas -/

/-- The removal loop is left-to-right filtering: it returns the number of
matching entries together with the non-matching entries in their original
relative order. -/
theorem removeAllMatching_eq (p : Dish → Bool) (l : List Dish) :
    removeAllMatching p l = (l.countP p, l.filter (fun d => !p d)) := by
  induction l with
  | nil => simp [removeAllMatching]
  | cons d rest ih =>
    by_cases h : p d <;>
      simp [removeAllMatching, h, ih, List.countP_cons]

/-- Every dish's label lies in the fixed closed label set. -/
theorem toLabel_mem_cuisineLabels (c : CuisineType) : c.toLabel ∈ cuisineLabels := by
  cases c <;> simp [CuisineType.toLabel, cuisineLabels]

/-- Running the counting chain of the report over a list adds, per category,
the number of entries carrying that category's label. -/
theorem foldl_bumpCount (l : List Dish) (c : ReportCounts) :
    l.foldl bumpCount c =
      ⟨c.italian + l.countP (fun d => d.cuisineType.toLabel == "ITALIAN"),
       c.mexican + l.countP (fun d => d.cuisineType.toLabel == "MEXICAN"),
       c.chinese + l.countP (fun d => d.cuisineType.toLabel == "CHINESE"),
       c.indian + l.countP (fun d => d.cuisineType.toLabel == "INDIAN"),
       c.american + l.countP (fun d => d.cuisineType.toLabel == "AMERICAN"),
       c.french + l.countP (fun d => d.cuisineType.toLabel == "FRENCH"),
       c.other + l.countP (fun d => d.cuisineType.toLabel == "OTHER")⟩ := by
  induction l generalizing c with
  | nil => simp
  | cons d rest ih =>
    rcases d with ⟨nm, ing, pt, ct⟩
    cases ct <;>
      simp [bumpCount, CuisineType.toLabel, ih, List.countP_cons] <;>
      omega

/-- Scaling never changes the represented value: the result triple of
`scaleToPrec` stands for the same rational a/b · 2^e it started from, and the
denominator stays positive. -/
theorem scaleToPrec_val (fuel : Nat) :
    ∀ (a b : Nat) (e : Int), 0 < b →
      0 < (scaleToPrec fuel a b e).2.1
      ∧ ((scaleToPrec fuel a b e).1 : ℚ) / ((scaleToPrec fuel a b e).2.1 : ℚ)
            * 2 ^ (scaleToPrec fuel a b e).2.2
          = (a : ℚ) / (b : ℚ) * 2 ^ e := by
  induction fuel with
  | zero =>
    intro a b e hb
    exact ⟨hb, rfl⟩
  | succ fuel ih =>
    intro a b e hb
    have hbq : ((b : ℚ)) ≠ 0 := by positivity
    by_cases h1 : 2 ^ 53 * b ≤ a
    · simp only [scaleToPrec, if_pos h1]
      obtain ⟨hb2, hv⟩ := ih a (2 * b) (e + 1) (by positivity)
      refine ⟨hb2, hv.trans ?_⟩
      push_cast
      rw [zpow_add_one₀ (by norm_num : (2:ℚ) ≠ 0)]
      field_simp
      ring
    · by_cases h2 : a < 2 ^ 52 * b
      · simp only [scaleToPrec, if_neg h1, if_pos h2]
        obtain ⟨hb2, hv⟩ := ih (2 * a) b (e - 1) hb
        refine ⟨hb2, hv.trans ?_⟩
        push_cast
        rw [zpow_sub_one₀ (by norm_num : (2:ℚ) ≠ 0)]
        field_simp
        ring
      · simp only [scaleToPrec, if_neg h1, if_neg h2]
        exact ⟨hb, by simp⟩

/-- When the initial fraction is within 2^fuel of the normalized band on both
sides, the loop lands in the band: 2^52 ≤ a/b < 2^53 at the result. -/
theorem scaleToPrec_inRange (fuel : Nat) :
    ∀ (a b : Nat) (e : Int),
      a < 2 ^ 53 * b * 2 ^ fuel →
      2 ^ 52 * b ≤ a * 2 ^ fuel →
      2 ^ 52 * (scaleToPrec fuel a b e).2.1 ≤ (scaleToPrec fuel a b e).1
      ∧ (scaleToPrec fuel a b e).1 < 2 ^ 53 * (scaleToPrec fuel a b e).2.1 := by
  induction fuel with
  | zero =>
    intro a b e hu hl
    simp only [pow_zero, mul_one] at hu hl
    simp only [scaleToPrec]
    exact ⟨hl, hu⟩
  | succ fuel ih =>
    intro a b e hu hl
    by_cases h1 : 2 ^ 53 * b ≤ a
    · simp only [scaleToPrec, if_pos h1]
      apply ih
      · exact lt_of_lt_of_eq hu (by ring)
      · calc 2 ^ 52 * (2 * b) = 2 ^ 53 * b := by ring
          _ ≤ a := h1
          _ ≤ a * 2 ^ fuel := le_mul_of_one_le_right (Nat.zero_le a) Nat.one_le_two_pow
    · by_cases h2 : a < 2 ^ 52 * b
      · simp only [scaleToPrec, if_neg h1, if_pos h2]
        apply ih
        · calc 2 * a < 2 * (2 ^ 52 * b) := by
                exact mul_lt_mul_of_pos_left h2 (by norm_num)
            _ = 2 ^ 53 * b := by ring
            _ ≤ 2 ^ 53 * b * 2 ^ fuel :=
                le_mul_of_one_le_right (Nat.zero_le _) Nat.one_le_two_pow
        · exact hl.trans_eq (by ring)
      · simp only [scaleToPrec, if_neg h1, if_neg h2]
        exact ⟨le_of_not_lt h2, lt_of_not_le h1⟩

/-- The binary64 rounding of a positive fraction whose magnitude is within
2^62 of 1: a full-precision mantissa, and a result within half an ulp —
relatively within 2^-53 — of a/b. -/
theorem fp64Round_spec (a b : Nat) (hb : 0 < b)
    (hab : a ≤ 2 ^ 62 * b) (hba : b ≤ 2 ^ 62 * a) :
    2 ^ 52 ≤ (fp64Round a b).1 ∧ (fp64Round a b).1 ≤ 2 ^ 53
    ∧ |fpVal (fp64Round a b) - (a : ℚ) / b| ≤ ((a : ℚ) / b) / 2 ^ 53 := by
  have hpow1 : (2:ℕ) ^ 53 * 2 ^ 4096 = 2 ^ 4149 := by
    rw [← pow_add]
  have hu : a < 2 ^ 53 * b * 2 ^ 4096 := by
    calc a ≤ 2 ^ 62 * b := hab
      _ < 2 ^ 4149 * b := by
          exact mul_lt_mul_of_pos_right (Nat.pow_lt_pow_right (by norm_num) (by norm_num)) hb
      _ = 2 ^ 53 * b * 2 ^ 4096 := by rw [← hpow1]; ring
  have hl : 2 ^ 52 * b ≤ a * 2 ^ 4096 := by
    calc 2 ^ 52 * b ≤ 2 ^ 52 * (2 ^ 62 * a) := Nat.mul_le_mul (le_refl _) hba
      _ = 2 ^ 114 * a := by rw [show (2:ℕ) ^ 52 * (2 ^ 62 * a) = 2 ^ 52 * 2 ^ 62 * a by ring,
            ← pow_add]
      _ ≤ 2 ^ 4096 * a := Nat.mul_le_mul (Nat.pow_le_pow_right (by norm_num) (by norm_num))
            (le_refl _)
      _ = a * 2 ^ 4096 := mul_comm _ _
  obtain ⟨hr1, hr2⟩ := scaleToPrec_inRange 4096 a b 0 hu hl
  obtain ⟨hb2, hval⟩ := scaleToPrec_val 4096 a b 0 hb
  rcases hsp : scaleToPrec 4096 a b 0 with ⟨a2, b2, e⟩
  rw [hsp] at hr1 hr2 hb2 hval
  dsimp only at hr1 hr2 hb2 hval
  rw [zpow_zero, mul_one] at hval
  clear hu hl hpow1 hab hba
  have hq52 : 2 ^ 52 ≤ a2 / b2 := (Nat.le_div_iff_mul_le hb2).mpr hr1
  have hqlt : a2 / b2 < 2 ^ 53 := (Nat.div_lt_iff_lt_mul hb2).mpr hr2
  have hrlt : a2 % b2 < b2 := Nat.mod_lt _ hb2
  have hb2q : ((b2 : ℚ)) ≠ 0 := by positivity
  have hb2pos : (0 : ℚ) < (b2 : ℚ) := by exact_mod_cast hb2
  have hsplit : (a2 : ℚ) / b2 = ((a2 / b2 : ℕ) : ℚ) + ((a2 % b2 : ℕ) : ℚ) / (b2 : ℚ) := by
    have hdm : ((b2 * (a2 / b2) + a2 % b2 : ℕ) : ℚ) = (a2 : ℚ) := by
      exact_mod_cast congrArg (fun x : ℕ => (x : ℚ)) (Nat.div_add_mod a2 b2)
    push_cast at hdm
    field_simp
    linarith
  have habs : ∀ m : Nat, 2 ^ 52 ≤ m → m ≤ 2 ^ 53 → |(m : ℚ) - (a2 : ℚ) / b2| ≤ 1 / 2 →
      2 ^ 52 ≤ m ∧ m ≤ 2 ^ 53 ∧ |fpVal (m, e) - (a : ℚ) / b| ≤ ((a : ℚ) / b) / 2 ^ 53 := by
    intro m h1 h2 h3
    refine ⟨h1, h2, ?_⟩
    have hz : (0 : ℚ) < (2 : ℚ) ^ e := zpow_pos (by norm_num) e
    have hdiff : fpVal (m, e) - (a : ℚ) / b = ((m : ℚ) - (a2 : ℚ) / b2) * 2 ^ e := by
      rw [fpVal, ← hval]; ring
    have h52 : (2 : ℚ) ^ 52 ≤ (a2 : ℚ) / b2 := by
      rw [le_div_iff₀ hb2pos]
      exact_mod_cast hr1
    rw [hdiff, abs_mul, abs_of_pos hz]
    calc |(m : ℚ) - (a2 : ℚ) / b2| * 2 ^ e ≤ (1 / 2) * 2 ^ e :=
          mul_le_mul_of_nonneg_right h3 hz.le
      _ = ((2 : ℚ) ^ 52 * 2 ^ e) / 2 ^ 53 := by
          rw [show ((2:ℚ) ^ 53) = 2 ^ 52 * 2 from by norm_num [pow_succ]]
          field_simp
          ring
      _ ≤ ((a2 : ℚ) / b2 * 2 ^ e) / 2 ^ 53 := by gcongr
      _ = ((a : ℚ) / b) / 2 ^ 53 := by rw [hval]
  have ht0 : (0 : ℚ) ≤ ((a2 % b2 : ℕ) : ℚ) / (b2 : ℚ) :=
    div_nonneg (Nat.cast_nonneg _) (Nat.cast_nonneg _)
  have ht1 : ((a2 % b2 : ℕ) : ℚ) / (b2 : ℚ) < 1 := by
    rw [div_lt_one hb2pos]
    exact_mod_cast hrlt
  rw [fp64Round, hsp]
  dsimp only
  split_ifs with hc1 hc2 hc3
  · apply habs _ hq52 hqlt.le
    have hcQ : 2 * ((a2 % b2 : ℕ) : ℚ) < (b2 : ℚ) := by exact_mod_cast hc1
    have htlt : ((a2 % b2 : ℕ) : ℚ) / (b2 : ℚ) < 1 / 2 := by
      rw [div_lt_iff₀ hb2pos]
      linarith
    rw [hsplit, abs_le]
    constructor <;> linarith
  · apply habs _ (hq52.trans (Nat.le_succ _)) hqlt
    have hcQ : (b2 : ℚ) < 2 * ((a2 % b2 : ℕ) : ℚ) := by exact_mod_cast hc2
    have htgt : (1 : ℚ) / 2 < ((a2 % b2 : ℕ) : ℚ) / (b2 : ℚ) := by
      rw [lt_div_iff₀ hb2pos]
      linarith
    rw [hsplit, abs_le]
    constructor <;> push_cast <;> linarith
  · apply habs _ hq52 hqlt.le
    have htie : 2 * (a2 % b2) = b2 := by omega
    have hcQ : 2 * ((a2 % b2 : ℕ) : ℚ) = (b2 : ℚ) := by exact_mod_cast htie
    have hteq : ((a2 % b2 : ℕ) : ℚ) / (b2 : ℚ) = 1 / 2 := by
      rw [div_eq_iff (ne_of_gt hb2pos)]
      linarith
    rw [hsplit, abs_le]
    constructor <;> linarith
  · apply habs _ (hq52.trans (Nat.le_succ _)) hqlt
    have htie : 2 * (a2 % b2) = b2 := by omega
    have hcQ : 2 * ((a2 % b2 : ℕ) : ℚ) = (b2 : ℚ) := by exact_mod_cast htie
    have hteq : ((a2 % b2 : ℕ) : ℚ) / (b2 : ℚ) = 1 / 2 := by
      rw [div_eq_iff (ne_of_gt hb2pos)]
      linarith
    rw [hsplit, abs_le]
    constructor <;> push_cast <;> linarith

/-- C `round` on a non-negative value is `⌊x + 1/2⌋`. -/
theorem fpRoundHalfAwayPos_eq_floor (m : Nat) (e : Int) :
    (fpRoundHalfAwayPos m e : ℤ) = ⌊(m : ℚ) * 2 ^ e + 1 / 2⌋ := by
  by_cases he : 0 ≤ e
  · rw [fpRoundHalfAwayPos, if_pos he]
    have hk : ((e.toNat : ℕ) : ℤ) = e := Int.toNat_of_nonneg he
    have hz : (2 : ℚ) ^ e = ((2 ^ e.toNat : ℕ) : ℚ) := by
      conv_lhs => rw [← hk]
      rw [zpow_natCast]
      push_cast
      ring
    rw [hz, show ((m : ℚ) * ((2 ^ e.toNat : ℕ) : ℚ)) = (((m * 2 ^ e.toNat : ℕ) : ℤ) : ℚ)
        from by push_cast; ring]
    rw [Int.floor_int_add]
    norm_num
  · rw [fpRoundHalfAwayPos, if_neg he]
    have hkpos : 0 < (-e).toNat := by omega
    have hd : 0 < 2 ^ (-e).toNat := Nat.pos_pow_of_pos _ (by norm_num)
    set d := 2 ^ (-e).toNat with hddef
    have hdq : (0 : ℚ) < (d : ℚ) := by exact_mod_cast hd
    have hz : (2 : ℚ) ^ e = ((d : ℚ))⁻¹ := by
      rw [hddef]
      push_cast
      rw [← zpow_natCast (2 : ℚ) (-e).toNat, ← zpow_neg]
      congr 1
      omega
    have harg : (m : ℚ) * 2 ^ e + 1 / 2 = ((2 * m + d : ℕ) : ℚ) / ((2 * d : ℕ) : ℚ) := by
      rw [hz]
      push_cast
      field_simp
      ring
    rw [harg, Rat.floor_natCast_div_natCast, ← Int.natCast_div]
    have hsplit : (2 * m + d) / (2 * d) = m / d + (if d ≤ 2 * (m % d) then 1 else 0) := by
      have hm : 2 * m + d = (2 * (m % d) + d) + (2 * d) * (m / d) := by
        calc 2 * m + d = 2 * (d * (m / d) + m % d) + d := by rw [Nat.div_add_mod]
          _ = (2 * (m % d) + d) + (2 * d) * (m / d) := by ring
      rw [hm, Nat.add_mul_div_left _ _ (by omega : 0 < 2 * d)]
      have hr : m % d < d := Nat.mod_lt _ hd
      by_cases hc : d ≤ 2 * (m % d)
      · rw [if_pos hc]
        have h1 : (2 * (m % d) + d) / (2 * d) = 1 :=
          Nat.div_eq_of_lt_le (by omega) (by omega)
        omega
      · rw [if_neg hc]
        have h0 : (2 * (m % d) + d) / (2 * d) = 0 := Nat.div_eq_of_lt (by omega)
        omega
    rw [hsplit]

/-- Forward error of the whole percentage pipeline: for `int`-ranged positive
c and n, the integer the program computes is within 1 of the exact
half-up rounding of (c/n)·10000 (the three roundings perturb the value by
less than 1/4 before the final rounding). -/
theorem pctHundredthsFp_near (c n : Nat) (hc : 0 < c) (hn : 0 < n)
    (hc31 : c ≤ 2 ^ 31) (hn31 : n ≤ 2 ^ 31) :
    |(pctHundredthsFp c n : ℚ) - ((⌊(c : ℚ) / n * 10000 + 1 / 2⌋ : ℤ) : ℚ)| ≤ 1 := by
  -- stage 1: the quotient
  have hab1 : c ≤ 2 ^ 62 * n := by
    calc c ≤ 2 ^ 31 := hc31
      _ ≤ 2 ^ 62 * 1 := by norm_num
      _ ≤ 2 ^ 62 * n := Nat.mul_le_mul (le_refl _) hn
  have hba1 : n ≤ 2 ^ 62 * c := by
    calc n ≤ 2 ^ 31 := hn31
      _ ≤ 2 ^ 62 * 1 := by norm_num
      _ ≤ 2 ^ 62 * c := Nat.mul_le_mul (le_refl _) hc
  obtain ⟨hm1lo, hm1hi, herr1⟩ := fp64Round_spec c n hn hab1 hba1
  rcases hfp1 : fp64Round c n with ⟨m1, e1⟩
  rw [hfp1] at hm1lo hm1hi herr1
  dsimp only at hm1lo hm1hi herr1
  rw [fpVal] at herr1
  dsimp only at herr1
  -- stage 2: * 100
  have hm1pos : 0 < m1 := lt_of_lt_of_le (by norm_num) hm1lo
  have hab2 : 100 * m1 ≤ 2 ^ 62 * 1 := by
    calc 100 * m1 ≤ 100 * 2 ^ 53 := Nat.mul_le_mul (le_refl _) hm1hi
      _ ≤ 2 ^ 62 * 1 := by norm_num
  have hba2 : (1 : ℕ) ≤ 2 ^ 62 * (100 * m1) := by
    have : 0 < 2 ^ 62 * (100 * m1) := by positivity
    exact this
  obtain ⟨hm2lo, hm2hi, herr2⟩ := fp64Round_spec (100 * m1) 1 (by norm_num) hab2 hba2
  rcases hfp2 : fp64Round (100 * m1) 1 with ⟨m2, e2⟩
  rw [hfp2] at hm2lo hm2hi herr2
  dsimp only at hm2lo hm2hi herr2
  rw [fpVal] at herr2
  dsimp only at herr2
  rw [Nat.cast_one, div_one] at herr2
  -- stage 3: * 100 again
  have hm2pos : 0 < m2 := lt_of_lt_of_le (by norm_num) hm2lo
  have hab3 : 100 * m2 ≤ 2 ^ 62 * 1 := by
    calc 100 * m2 ≤ 100 * 2 ^ 53 := Nat.mul_le_mul (le_refl _) hm2hi
      _ ≤ 2 ^ 62 * 1 := by norm_num
  have hba3 : (1 : ℕ) ≤ 2 ^ 62 * (100 * m2) := by
    have : 0 < 2 ^ 62 * (100 * m2) := by positivity
    exact this
  obtain ⟨hm3lo, hm3hi, herr3⟩ := fp64Round_spec (100 * m2) 1 (by norm_num) hab3 hba3
  rcases hfp3 : fp64Round (100 * m2) 1 with ⟨m3, e3⟩
  rw [hfp3] at hm3lo hm3hi herr3
  dsimp only at hm3lo hm3hi herr3
  rw [fpVal] at herr3
  dsimp only at herr3
  rw [Nat.cast_one, div_one] at herr3
  push_cast at herr2 herr3
  -- abbreviations and positivity
  set q : ℚ := (c : ℚ) / n with hqdef
  have hq0 : 0 < q := div_pos (by exact_mod_cast hc) (by exact_mod_cast hn)
  have hA : (0 : ℚ) < (2 : ℚ) ^ e1 := zpow_pos (by norm_num) _
  have hB : (0 : ℚ) < (2 : ℚ) ^ e2 := zpow_pos (by norm_num) _
  set v1 : ℚ := (m1 : ℚ) * 2 ^ e1 with hv1def
  set x2 : ℚ := (m2 : ℚ) * 2 ^ e2 * 2 ^ e1 with hx2def
  set x3 : ℚ := (m3 : ℚ) * 2 ^ e3 * 2 ^ e2 * 2 ^ e1 with hx3def
  have hv1pos : 0 < v1 := by rw [hv1def]; positivity
  have hx2pos : 0 < x2 := by rw [hx2def]; positivity
  -- rescaled per-stage error bounds
  have herr2s : |x2 - 100 * v1| ≤ 100 * v1 / 2 ^ 53 := by
    have h := mul_le_mul_of_nonneg_right herr2 hA.le
    rw [← abs_of_pos hA, ← abs_mul] at h
    have he : x2 - 100 * v1 = ((m2 : ℚ) * 2 ^ e2 - 100 * m1) * 2 ^ e1 := by
      rw [hx2def, hv1def]; ring
    rw [he]
    calc |((m2 : ℚ) * 2 ^ e2 - 100 * m1) * 2 ^ e1|
        ≤ 100 * (m1 : ℚ) / 2 ^ 53 * |(2 : ℚ) ^ e1| := h
      _ = 100 * v1 / 2 ^ 53 := by rw [abs_of_pos hA, hv1def]; ring
  have herr3s : |x3 - 100 * x2| ≤ 100 * x2 / 2 ^ 53 := by
    have h := mul_le_mul_of_nonneg_right
      (mul_le_mul_of_nonneg_right herr3 hB.le) hA.le
    rw [← abs_of_pos hB, ← abs_mul, ← abs_of_pos hA, ← abs_mul] at h
    have he : x3 - 100 * x2 = ((m3 : ℚ) * 2 ^ e3 - 100 * m2) * 2 ^ e2 * 2 ^ e1 := by
      rw [hx3def, hx2def]; ring
    rw [he]
    calc |((m3 : ℚ) * 2 ^ e3 - 100 * m2) * 2 ^ e2 * 2 ^ e1|
        ≤ 100 * (m2 : ℚ) / 2 ^ 53 * |(2 : ℚ) ^ e2| * |(2 : ℚ) ^ e1| := h
      _ = 100 * x2 / 2 ^ 53 := by rw [abs_of_pos hA, abs_of_pos hB, hx2def]; ring
  -- numeric size bounds
  have hq31 : q ≤ 2 ^ 31 := by
    rw [hqdef, div_le_iff₀ (by exact_mod_cast hn : (0 : ℚ) < (n : ℚ))]
    calc (c : ℚ) ≤ 2 ^ 31 := by exact_mod_cast hc31
      _ ≤ 2 ^ 31 * n := le_mul_of_one_le_right (by positivity)
          (by exact_mod_cast hn : (1 : ℚ) ≤ (n : ℚ))
  have hv1le : v1 ≤ 2 ^ 32 := by
    have h := (abs_le.mp herr1).2
    have hqt : q / 2 ^ 53 ≤ (2 : ℚ) ^ 31 / 2 ^ 53 := by gcongr
    have hlit : (2 : ℚ) ^ 31 + 2 ^ 31 / 2 ^ 53 ≤ 2 ^ 32 := by norm_num
    rw [hv1def]
    linarith [herr1, h]
  have hx2le : x2 ≤ 2 ^ 40 := by
    have h := (abs_le.mp herr2s).2
    have hlit : (100 : ℚ) * 2 ^ 32 + 100 * 2 ^ 32 / 2 ^ 53 ≤ 2 ^ 40 := by norm_num
    linarith
  -- total forward error
  have htri : |x3 - 10000 * q| ≤ |x3 - 100 * x2| + 100 * |x2 - 100 * v1|
      + 10000 * |v1 - q| := by
    have he : x3 - 10000 * q
        = (x3 - 100 * x2) + 100 * (x2 - 100 * v1) + 10000 * (v1 - q) := by ring
    rw [he]
    calc |(x3 - 100 * x2) + 100 * (x2 - 100 * v1) + 10000 * (v1 - q)|
        ≤ |(x3 - 100 * x2) + 100 * (x2 - 100 * v1)| + |10000 * (v1 - q)| :=
          abs_add _ _
      _ ≤ |x3 - 100 * x2| + |100 * (x2 - 100 * v1)| + |10000 * (v1 - q)| := by
          have := abs_add (x3 - 100 * x2) (100 * (x2 - 100 * v1))
          linarith
      _ = |x3 - 100 * x2| + 100 * |x2 - 100 * v1| + 10000 * |v1 - q| := by
          rw [abs_mul, abs_mul]
          norm_num
  have hfinal : |x3 - 10000 * q| ≤ 1 / 4 := by
    have b1 : |x3 - 100 * x2| ≤ 100 * 2 ^ 40 / 2 ^ 53 := by
      refine herr3s.trans ?_
      have : (100 : ℚ) * x2 ≤ 100 * 2 ^ 40 := by linarith
      linarith
    have b2 : |x2 - 100 * v1| ≤ 100 * 2 ^ 32 / 2 ^ 53 := by
      refine herr2s.trans ?_
      have : (100 : ℚ) * v1 ≤ 100 * 2 ^ 32 := by linarith
      linarith
    have b3 : |v1 - q| ≤ (2 : ℚ) ^ 31 / 2 ^ 53 := by
      refine herr1.trans ?_
      gcongr
    have hlit : (100 : ℚ) * 2 ^ 40 / 2 ^ 53 + 100 * (100 * 2 ^ 32 / 2 ^ 53)
        + 10000 * ((2 : ℚ) ^ 31 / 2 ^ 53) ≤ 1 / 4 := by norm_num
    linarith
  -- the computed integer is the floor of the perturbed value
  have hpcteq : (pctHundredthsFp c n : ℤ) = ⌊x3 + 1 / 2⌋ := by
    rw [pctHundredthsFp, if_neg hc.ne']
    simp only [hfp1, hfp2, hfp3]
    rw [fpRoundHalfAwayPos_eq_floor]
    congr 1
    rw [hx3def, zpow_add₀ (by norm_num : (2 : ℚ) ≠ 0),
      zpow_add₀ (by norm_num : (2 : ℚ) ≠ 0)]
    ring
  -- compare the two floors
  have hup : ⌊x3 + 1 / 2⌋ ≤ ⌊q * 10000 + 1 / 2⌋ + 1 := by
    have h1 : x3 + 1 / 2 ≤ (q * 10000 + 1 / 2) + 1 := by
      have := (abs_le.mp hfinal).2
      linarith
    calc ⌊x3 + 1 / 2⌋ ≤ ⌊(q * 10000 + 1 / 2) + 1⌋ := Int.floor_le_floor h1
      _ = ⌊q * 10000 + 1 / 2⌋ + 1 := Int.floor_add_one _
  have hlo : ⌊q * 10000 + 1 / 2⌋ - 1 ≤ ⌊x3 + 1 / 2⌋ := by
    have h1 : (q * 10000 + 1 / 2) - 1 ≤ x3 + 1 / 2 := by
      have := (abs_le.mp hfinal).1
      linarith
    calc ⌊q * 10000 + 1 / 2⌋ - 1 = ⌊(q * 10000 + 1 / 2) - (1 : ℤ)⌋ := by
          rw [Int.floor_sub_int]
      _ ≤ ⌊x3 + 1 / 2⌋ := Int.floor_le_floor (by push_cast; linarith)
  have hcast : ((pctHundredthsFp c n : ℕ) : ℚ) = ((⌊x3 + 1 / 2⌋ : ℤ) : ℚ) := by
    exact_mod_cast congrArg (fun z : ℤ => (z : ℚ)) hpcteq
  rw [abs_le]
  constructor
  · have hl : ((⌊q * 10000 + 1 / 2⌋ : ℤ) : ℚ) - 1 ≤ ((⌊x3 + 1 / 2⌋ : ℤ) : ℚ) := by
      exact_mod_cast hlo
    rw [hcast]
    linarith
  · have hu : ((⌊x3 + 1 / 2⌋ : ℤ) : ℚ) ≤ ((⌊q * 10000 + 1 / 2⌋ : ℤ) : ℚ) + 1 := by
      exact_mod_cast hup
    rw [hcast]
    linarith

/-- Kitchen-level form of the pipeline bound: on a non-empty kitchen with an
`int`-ranged non-negative elaborate count, `calculateElaboratePercentage`
differs from the exact 2-decimal rounding of the percentage by at most one
hundredth. -/
theorem calculateElaboratePercentage_near (k : Kitchen) (h : 0 ≤ k.count_elaborate)
    (h31 : k.count_elaborate ≤ 2 ^ 31) (hn31 : k.items.length ≤ 2 ^ 31)
    (hlen : k.items.length ≠ 0) :
    |k.calculateElaboratePercentage
        - roundTo2 ((k.count_elaborate : ℚ) / (k.items.length : ℚ) * 100)| ≤ 1 / 100 := by
  have hn : 0 < k.items.length := Nat.pos_of_ne_zero hlen
  have hc31 : k.count_elaborate.toNat ≤ 2 ^ 31 := by omega
  have hq : (k.count_elaborate : ℚ) = ((k.count_elaborate.toNat : ℕ) : ℚ) := by
    exact_mod_cast (Int.toNat_of_nonneg h).symm
  have hval : k.calculateElaboratePercentage
      = ((pctHundredthsFp k.count_elaborate.toNat k.items.length : ℕ) : ℚ) / 100 := by
    rw [Kitchen.calculateElaboratePercentage, if_neg hlen, Kitchen.elaboratePctHundredths,
      if_neg hlen, if_pos h]
    norm_num
  have hround : roundTo2 ((k.count_elaborate : ℚ) / (k.items.length : ℚ) * 100)
      = ((⌊((k.count_elaborate.toNat : ℕ) : ℚ) / (k.items.length : ℚ) * 10000
            + 1 / 2⌋ : ℤ) : ℚ) / 100 := by
    rw [roundTo2, hq]
    congr 2
    ring_nf
  rw [hval, hround]
  by_cases hc0 : k.count_elaborate.toNat = 0
  · rw [hc0]
    norm_num [pctHundredthsFp]
  · have hnear := pctHundredthsFp_near k.count_elaborate.toNat k.items.length
      (Nat.pos_of_ne_zero hc0) hn hc31 hn31
    rw [div_sub_div_same, abs_div, abs_of_pos (by norm_num : (0 : ℚ) < 100)]
    gcongr

/-! ### The claims -/

/-- Claim C1: after any sequence of `newOrder`, `serveDish`,
`releaseDishesBelowPrepTime` and `releaseDishesOfCuisineType` from an empty
kitchen, `getPrepTimeSum()` should equal the sum of the preparation times of
the contained entries and `elaborateDishCount()` the number of contained
elaborate entries.  The bulk-removal members do not touch either aggregate, so
the concrete trace `staleTrace` (insert one elaborate 60-minute dish, then
`releaseDishesBelowPrepTime 61`) ends with an empty kitchen whose
`getPrepTimeSum()` is still 60 and whose `elaborateDishCount()` is still 1,
contradicting the claim (and the documented meaning of both getters). -/
theorem bulkRemoval_aggregates_stale :
    staleTrace.items = []
    ∧ staleTrace.getPrepTimeSum = 60
    ∧ staleTrace.elaborateDishCount = 1
    ∧ staleTrace.getPrepTimeSum ≠ prepTimeSumOf staleTrace.items
    ∧ staleTrace.elaborateDishCount ≠ elaborateCountOf staleTrace.items := by
  decide

/-- Claim C2: `calculateAvgPrepTime()` returns 0 on an empty kitchen and
otherwise `total_prep_time_` divided by the number of entries rounded to the
nearest integer with halves rounded up, never dividing by zero.  Stated for
non-negative `total_prep_time_` (preparation times are non-negative, so every
state built by the operations satisfies this); the C++ `double` arithmetic is
modelled exactly over `ℚ`. -/
theorem calculateAvgPrepTime_spec (k : Kitchen) (h : 0 ≤ k.total_prep_time) :
    (k.items = [] → k.calculateAvgPrepTime = 0)
    ∧ (k.items ≠ [] →
        k.calculateAvgPrepTime
          = roundHalfUp ((k.total_prep_time : ℚ) / (k.items.length : ℚ))) := by
  constructor
  · intro he
    simp [Kitchen.calculateAvgPrepTime, he]
  · intro hne
    have hlen : k.items.length ≠ 0 := by simpa using hne
    have h1 : (0:ℚ) ≤ (k.total_prep_time : ℚ) := by exact_mod_cast h
    have h2 : (0:ℚ) ≤ (k.items.length : ℚ) := by positivity
    have hq : (0:ℚ) ≤ (k.total_prep_time : ℚ) / (k.items.length : ℚ) + 1/2 :=
      add_nonneg (div_nonneg h1 h2) (by norm_num)
    simp only [Kitchen.calculateAvgPrepTime, hlen, if_neg hlen, if_pos hq, ratTrunc,
      roundHalfUp, if_false]

/-- Witness for C2: the specification's example — prep times 50, 70, 65 give
average round(185 / 3) = 62. -/
theorem calculateAvgPrepTime_spec_witness :
    (Kitchen.mk 10
        [⟨"a", [], 50, .other⟩, ⟨"b", [], 70, .other⟩, ⟨"c", [], 65, .other⟩]
        185 0).calculateAvgPrepTime = 62 := by
  have h := (calculateAvgPrepTime_spec
      (Kitchen.mk 10
        [⟨"a", [], 50, .other⟩, ⟨"b", [], 70, .other⟩, ⟨"c", [], 65, .other⟩]
        185 0)
      (by norm_num)).2 (by simp)
  rw [h]
  norm_num [roundHalfUp]

set_option maxRecDepth 40000 in
/-- Claim C3, counterexample: at `tieDemo` (23 elaborate among 160 entries)
the exact value 14.375% lies on a half-hundredth tie, which 2-decimal rounding
(halves up) takes to 14.38; but the binary64 pipeline computes
1437.4999999999998, so `calculateElaboratePercentage` returns 14.37 — the
claimed equality with the exact 2-decimal rounding fails on this state. -/
theorem calculateElaboratePercentage_tie_counterexample :
    prepTimeSumOf tieDemo.items = tieDemo.total_prep_time
    ∧ elaborateCountOf tieDemo.items = tieDemo.count_elaborate
    ∧ tieDemo.calculateElaboratePercentage = 1437 / 100
    ∧ roundTo2 ((tieDemo.count_elaborate : ℚ) / (tieDemo.items.length : ℚ) * 100)
        = 1438 / 100
    ∧ tieDemo.calculateElaboratePercentage
        ≠ roundTo2 ((tieDemo.count_elaborate : ℚ) / (tieDemo.items.length : ℚ) * 100) := by
  have hh : tieDemo.elaboratePctHundredths = 1437 := by decide
  have hlen : tieDemo.items.length = 160 := by
    simp [tieDemo]
  have hc : tieDemo.count_elaborate = 23 := rfl
  have h1 : tieDemo.calculateElaboratePercentage = 1437 / 100 := by
    rw [Kitchen.calculateElaboratePercentage, if_neg (by simp [hlen]), hh]
    norm_num
  have h2 : roundTo2 ((tieDemo.count_elaborate : ℚ) / (tieDemo.items.length : ℚ) * 100)
      = 1438 / 100 := by
    rw [hc, hlen]
    norm_num [roundTo2]
  refine ⟨by decide, by decide, h1, h2, ?_⟩
  rw [h1, h2]
  norm_num

/-- Claim C3 as amended: `calculateElaboratePercentage()` returns 0 on an
empty kitchen; otherwise it returns the binary64 evaluation of
`(count_elaborate_ / size) * 100` rounded to two decimal places, which is
within one hundredth of the exact `(elaborate_count / count) * 100` rounded to
two decimal places (halves up) — and can land one hundredth below it when the
floating-point intermediate falls under an exact half-hundredth tie.  Stated
for `int`-ranged non-negative counts and sizes, the ranges the C++ fields can
hold. -/
theorem calculateElaboratePercentage_within_hundredth (k : Kitchen)
    (h : 0 ≤ k.count_elaborate) (h31 : k.count_elaborate ≤ 2 ^ 31)
    (hn31 : k.items.length ≤ 2 ^ 31) :
    (k.items = [] → k.calculateElaboratePercentage = 0)
    ∧ (k.items ≠ [] →
        |k.calculateElaboratePercentage
            - roundTo2 ((k.count_elaborate : ℚ) / (k.items.length : ℚ) * 100)|
          ≤ 1 / 100) := by
  constructor
  · intro he
    simp [Kitchen.calculateElaboratePercentage, he]
  · intro hne
    have hlen : k.items.length ≠ 0 := by simpa using hne
    exact calculateElaboratePercentage_near k h h31 hn31 hlen

/-- Witness for the amended C3: the specification's example — 7 elaborate
dishes among 13 — lands within one hundredth of 53.85. -/
theorem calculateElaboratePercentage_within_hundredth_witness :
    |(Kitchen.mk 20 (List.replicate 13 ⟨"d", [], 10, .other⟩) 130
          7).calculateElaboratePercentage
        - roundTo2 ((7 : ℚ) / 13 * 100)| ≤ 1 / 100 := by
  have h := (calculateElaboratePercentage_within_hundredth
      (Kitchen.mk 20 (List.replicate 13 ⟨"d", [], 10, .other⟩) 130 7)
      (by norm_num) (by norm_num) (by simp)).2 (by simp)
  simpa using h

/-- Claim C4: `releaseDishesBelowPrepTime(threshold)` removes exactly the
entries whose preparation time is strictly below the threshold, keeps every
other entry, and returns the number removed. -/
theorem releaseDishesBelowPrepTime_spec (k : Kitchen) (threshold : Int) :
    (k.releaseDishesBelowPrepTime threshold).1
        = k.items.countP (fun d => decide ((d.prepTime : Int) < threshold))
    ∧ (k.releaseDishesBelowPrepTime threshold).2.items
        = k.items.filter (fun d => !decide ((d.prepTime : Int) < threshold))
    ∧ ∀ d : Dish, d ∈ (k.releaseDishesBelowPrepTime threshold).2.items
        ↔ d ∈ k.items ∧ threshold ≤ (d.prepTime : Int) := by
  refine ⟨?_, ?_, ?_⟩ <;>
    simp [Kitchen.releaseDishesBelowPrepTime, removeAllMatching_eq, List.mem_filter]

/-- Claim C5: `releaseDishesOfCuisineType(label)` removes exactly the entries
whose cuisine label equals the argument by exact case-sensitive comparison and
returns the number removed; a label outside the fixed category set matches no
entry, so it removes nothing and returns 0. -/
theorem releaseDishesOfCuisineType_spec (k : Kitchen) (label : String) :
    (k.releaseDishesOfCuisineType label).1
        = k.items.countP (fun d => d.cuisineType.toLabel == label)
    ∧ (k.releaseDishesOfCuisineType label).2.items
        = k.items.filter (fun d => !(d.cuisineType.toLabel == label))
    ∧ (label ∉ cuisineLabels →
        (k.releaseDishesOfCuisineType label).1 = 0
          ∧ (k.releaseDishesOfCuisineType label).2.items = k.items) := by
  refine ⟨?_, ?_, fun hl => ⟨?_, ?_⟩⟩ <;>
    simp [Kitchen.releaseDishesOfCuisineType, removeAllMatching_eq]
  all_goals
    intro d hd he
    exact hl (he ▸ toLabel_mem_cuisineLabels d.cuisineType)

/-- Claim C6: `newOrder(dish)` fails — returning `false` with the entries and
both aggregate fields unchanged — when an entry equal to the dish by value is
already present or the bag is at capacity.  (The duplicate/capacity test lives
in `ArrayBag::add`, which is modelled from the spec.) -/
theorem newOrder_fail_spec (k : Kitchen) (d : Dish)
    (h : d ∈ k.items ∨ k.capacity ≤ k.items.length) :
    k.newOrder d = (false, k) := by
  rcases h with h | h <;>
    simp [Kitchen.newOrder, Kitchen.add, h]

/-- Witness for C6: inserting an exact duplicate of the one dish present fails
and leaves the state untouched. -/
theorem newOrder_fail_spec_witness :
    ((⟨2, [⟨"pasta", ["flour", "egg"], 30, .italian⟩], 30, 0⟩ : Kitchen).newOrder
        ⟨"pasta", ["flour", "egg"], 30, .italian⟩)
      = (false, (⟨2, [⟨"pasta", ["flour", "egg"], 30, .italian⟩], 30, 0⟩ : Kitchen)) :=
  newOrder_fail_spec _ _ (Or.inl (by decide))

/-- Claim C7: `serveDish(dish)` returns true exactly when an entry equal to
the dish by value is present; on success it deletes the first such entry with
no gap left (one entry fewer, the rest in order), subtracts the dish's
preparation time from `total_prep_time_` and decrements `count_elaborate_`
exactly when the dish is elaborate; on failure the state is unchanged.
(First-match removal lives in `ArrayBag::remove`, modelled from the spec.) -/
theorem serveDish_spec (k : Kitchen) (d : Dish) :
    ((k.serveDish d).1 = true ↔ d ∈ k.items)
    ∧ (d ∈ k.items →
        (k.serveDish d).2.items = k.items.erase d
          ∧ (k.serveDish d).2.items.length + 1 = k.items.length
          ∧ (k.serveDish d).2.total_prep_time = k.total_prep_time - (d.prepTime : Int)
          ∧ (k.serveDish d).2.count_elaborate
              = k.count_elaborate - (if d.isElaborate then 1 else 0))
    ∧ (d ∉ k.items → (k.serveDish d).2 = k) := by
  by_cases hd : d ∈ k.items
  · refine ⟨by simp [Kitchen.serveDish, Kitchen.remove, hd], fun _ => ⟨?_, ?_, ?_, ?_⟩,
      fun hn => absurd hd hn⟩ <;>
      simp [Kitchen.serveDish, Kitchen.remove, hd]
    · have hlen := List.length_erase_of_mem hd
      have hpos := List.length_pos_of_mem hd
      omega
    · split <;> simp
  · refine ⟨by simp [Kitchen.serveDish, Kitchen.remove, hd], fun hm => absurd hm hd,
      fun _ => ?_⟩
    simp [Kitchen.serveDish, Kitchen.remove, hd]

/-- Claim C8: `tallyCuisineTypes(label)` counts the contained entries whose
cuisine label equals the argument by exact case-sensitive comparison, and any
label outside the fixed category set tallies 0. -/
theorem tallyCuisineTypes_spec (k : Kitchen) (label : String) :
    k.tallyCuisineTypes label
        = (k.items.filter (fun d => d.cuisineType.toLabel == label)).length
    ∧ (label ∉ cuisineLabels → k.tallyCuisineTypes label = 0) := by
  constructor
  · rw [Kitchen.tallyCuisineTypes, List.countP_eq_length_filter]
  · intro hl
    simp only [Kitchen.tallyCuisineTypes, List.countP_eq_zero, beq_iff_eq]
    intro d hd he
    exact hl (he ▸ toLabel_mem_cuisineLabels d.cuisineType)

/-- Claim C9, counterexample: on `pctDemo` (one elaborate dish, percentage
100) the report streams the percentage through `operator<<(double)` with
default formatting, printing `100%`, not the `100.00%` that "exactly 2 decimal
places" demands, so the produced text differs from the claimed layout. -/
theorem kitchenReport_not_two_decimals :
    pctDemo.kitchenReport ≠ pctDemo.claimedReport := by
  have havg : pctDemo.calculateAvgPrepTime = 60 := by
    norm_num [pctDemo, Kitchen.calculateAvgPrepTime, ratTrunc]
  have hpct : pctDemo.elaboratePctHundredths = 10000 := by decide
  simp only [Kitchen.kitchenReport, Kitchen.claimedReport, havg, hpct]
  decide

/-- Claim C9 as amended: the report consists of the seven category lines in
canonical order with counts equal to `tallyCuisineTypes` of each label, a
blank line, the average preparation time rounded to the nearest integer, and
the elaborate percentage rendered in C++ default `double` formatting (at most
two decimal places, trailing fractional zeros and a trailing decimal point
omitted) followed by `%`. -/
theorem kitchenReport_layout (k : Kitchen) :
    k.kitchenReport = k.defaultFormatReport := by
  have hc := foldl_bumpCount k.items ⟨0, 0, 0, 0, 0, 0, 0⟩
  simp only [Kitchen.kitchenReport, Kitchen.defaultFormatReport, countCuisines, hc,
    Kitchen.tallyCuisineTypes, Nat.zero_add]

/-- Claim C10: both bulk-removal members keep the surviving entries in their
original relative order — the resulting sequence is the original one filtered
by the survival predicate. -/
theorem releaseDishes_preserve_order (k : Kitchen) (threshold : Int) (label : String) :
    (k.releaseDishesBelowPrepTime threshold).2.items
        = k.items.filter (fun d => !decide ((d.prepTime : Int) < threshold))
    ∧ (k.releaseDishesOfCuisineType label).2.items
        = k.items.filter (fun d => !(d.cuisineType.toLabel == label)) := by
  constructor <;>
    simp [Kitchen.releaseDishesBelowPrepTime, Kitchen.releaseDishesOfCuisineType,
      removeAllMatching_eq]

end Project03
